import Mathlib

/-!
Verification of the Move runtime value model and its canonical binary codec
(`language/move-core/types/src/value.rs`).

The data model (`MoveValue`, `MoveStruct`, layouts, type tags), the decoration
engine and the accessors are translated directly from the Rust source.  The
canonical byte-level codec is the composition of the serde implementations in
the source file with the BCS binary format that the `bcs` crate realises:
integers are fixed-width little-endian, addresses are 16 raw bytes, sequence
lengths are ULEB128-prefixed, tuples and serde structs are plain
concatenations, maps are a ULEB128 length followed by serialized key/value
pairs ordered by serialized key.  Bytes are modelled as `Nat` (each below
256 on any stream a real byte source can produce).
-/

namespace MoveCoreTypes

/-- A validated identifier (`Identifier` from `identifier.rs`); only its
character content matters here.  Identifiers are ASCII, so code points and
UTF-8 bytes coincide. -/
abbrev Identifier := String

/-- A fixed-width account address (`AccountAddress`), as its byte sequence.
The address width of this domain is 16 bytes; well-formedness of a concrete
address (length 16, bytes below 256) is a hypothesis where it matters. -/
abbrev AccountAddress := List Nat

/-- The address width in bytes. -/
def addressLength : Nat := 16

mutual

/-- Nominal type identifier (`TypeTag` from `language_storage.rs`).
Modelled from the spec: a type tag is an address, module name, type name and
type arguments; the source file for it is outside the given sources. -/
inductive TypeTag where
  | Bool : TypeTag
  | U8 : TypeTag
  | U64 : TypeTag
  | U128 : TypeTag
  | Address : TypeTag
  | Signer : TypeTag
  | Vector : TypeTag → TypeTag
  | Struct : StructTag → TypeTag

/-- Nominal struct identifier (`StructTag` from `language_storage.rs`).
Modelled from the spec: the canonical name of a struct type, made of the
defining address, module name, struct name and type arguments. -/
inductive StructTag where
  | mk (address : AccountAddress) (module : Identifier)
       (name : Identifier) (typeParams : List TypeTag)

end

mutual

/-- `MoveValue`: the tagged-union runtime value. -/
inductive MoveValue where
  | U8 : Nat → MoveValue
  | U64 : Nat → MoveValue
  | U128 : Nat → MoveValue
  | Bool : Bool → MoveValue
  | Address : AccountAddress → MoveValue
  | Vector : List MoveValue → MoveValue
  | Struct : MoveStruct → MoveValue
  | Signer : AccountAddress → MoveValue

/-- `MoveStruct`: one of three mutually exclusive struct representations. -/
inductive MoveStruct where
  | Runtime : List MoveValue → MoveStruct
  | WithFields : List (Identifier × MoveValue) → MoveStruct
  | WithTypes : StructTag → List (Identifier × MoveValue) → MoveStruct

end

mutual

/-- `MoveTypeLayout`: the schema mirroring the shape of values. -/
inductive MoveTypeLayout where
  | Bool : MoveTypeLayout
  | U8 : MoveTypeLayout
  | U64 : MoveTypeLayout
  | U128 : MoveTypeLayout
  | Address : MoveTypeLayout
  | Vector : MoveTypeLayout → MoveTypeLayout
  | Struct : MoveStructLayout → MoveTypeLayout
  | Signer : MoveTypeLayout

/-- `MoveStructLayout`: a struct layout in one of the three representations. -/
inductive MoveStructLayout where
  | Runtime : List MoveTypeLayout → MoveStructLayout
  | WithFields : List MoveFieldLayout → MoveStructLayout
  | WithTypes : StructTag → List MoveFieldLayout → MoveStructLayout

/-- `MoveFieldLayout`: a layout paired with a field name. -/
inductive MoveFieldLayout where
  | mk (name : Identifier) (layout : MoveTypeLayout)

end

/-- The field name of a `MoveFieldLayout`. -/
def MoveFieldLayout.name : MoveFieldLayout → Identifier
  | .mk n _ => n

/-- The layout component of a `MoveFieldLayout`. -/
def MoveFieldLayout.layout : MoveFieldLayout → MoveTypeLayout
  | .mk _ l => l

mutual

/-- `MoveValue::decorate`: promote a value against a layout.  Struct values
meeting struct layouts and vectors meeting vector layouts recurse; every
other combination returns the value unchanged (the catch-all source arm). -/
def MoveValue.decorate : MoveValue → MoveTypeLayout → MoveValue
  | .Struct s, .Struct l => .Struct (MoveStruct.decorate s l)
  | .Vector vals, .Vector t => .Vector (decorateList vals t)
  | v, _ => v

/-- Elementwise decoration of a vector body (the `map` in the source). -/
def decorateList : List MoveValue → MoveTypeLayout → List MoveValue
  | [], _ => []
  | v :: vs, t => MoveValue.decorate v t :: decorateList vs t

/-- `MoveStruct::decorate`: the three promoting arms plus the pass-through
catch-all arm of the source. -/
def MoveStruct.decorate : MoveStruct → MoveStructLayout → MoveStruct
  | .Runtime vals, .WithFields layouts => .WithFields (decorateZip vals layouts)
  | .Runtime vals, .WithTypes type_ fields => .WithTypes type_ (decorateZip vals fields)
  | .WithFields vals, .WithTypes type_ fields => .WithTypes type_ (decorateZipNamed vals fields)
  | v, _ => v

/-- The positional zip of bare values against field layouts
(`vals.into_iter().zip(layouts).map(...)` in the source): stops at the
shorter sequence, pairing each value with the declared field name. -/
def decorateZip : List MoveValue → List MoveFieldLayout → List (Identifier × MoveValue)
  | v :: vs, l :: ls => (l.name, MoveValue.decorate v l.layout) :: decorateZip vs ls
  | _, _ => []

/-- The zip of already-named fields against field layouts, keeping the
existing names (the `WithFields` to `WithTypes` arm of the source). -/
def decorateZipNamed : List (Identifier × MoveValue) → List MoveFieldLayout →
    List (Identifier × MoveValue)
  | (fld, v) :: vs, l :: ls => (fld, MoveValue.decorate v l.layout) :: decorateZipNamed vs ls
  | _, _ => []

end

/-- `MoveStruct::fields`: the borrowing flat-field accessor.  The source
panics on the decorated representations; the model returns `none` exactly
where the source aborts. -/
def MoveStruct.fields : MoveStruct → Option (List MoveValue)
  | .Runtime vals => some vals
  | .WithFields _ => none
  | .WithTypes _ _ => none

/-- `MoveStruct::into_fields`: the consuming accessor, defined for every
representation (names are dropped for decorated structs). -/
def MoveStruct.into_fields : MoveStruct → List MoveValue
  | .Runtime vals => vals
  | .WithFields fields => fields.map Prod.snd
  | .WithTypes _ fields => fields.map Prod.snd

/-- `MoveStructLayout::fields`: the borrowing flat-layout accessor.  The
source panics on the decorated representations; the model returns `none`
exactly where the source aborts. -/
def MoveStructLayout.fields : MoveStructLayout → Option (List MoveTypeLayout)
  | .Runtime vals => some vals
  | .WithFields _ => none
  | .WithTypes _ _ => none

/-- `MoveStructLayout::into_fields`: the consuming accessor. -/
def MoveStructLayout.into_fields : MoveStructLayout → List MoveTypeLayout
  | .Runtime vals => vals
  | .WithFields fields => fields.map MoveFieldLayout.layout
  | .WithTypes _ fields => fields.map MoveFieldLayout.layout

/-! ## Canonical binary encoding

The serde `Serialize` implementations of the source composed with the BCS
byte format of the `bcs` crate behind `MoveValue::simple_serialize`. -/

/-- ULEB128 encoding of a length (the variable-length integer length
prefix of the canonical format). -/
def encodeULEB (n : Nat) : List Nat :=
  if n < 128 then [n] else (n % 128 + 128) :: encodeULEB (n / 128)
decreasing_by exact Nat.div_lt_self (by omega) (by omega)

/-- Fixed-width little-endian byte encoding of an unsigned integer. -/
def toLEBytes : Nat → Nat → List Nat
  | 0, _ => []
  | w + 1, n => n % 256 :: toLEBytes w (n / 256)

/-- The unsigned integer denoted by little-endian bytes. -/
def fromLEBytes : List Nat → Nat
  | [] => 0
  | b :: bs => b + 256 * fromLEBytes bs

/-- The bytes of an (ASCII) string. -/
def strBytes (s : String) : List Nat := s.data.map Char.toNat

/-- BCS encoding of a string: ULEB128 byte length, then the bytes.  This is
how `Identifier` and the rendered type tag reach the wire. -/
def serializeStr (s : String) : List Nat :=
  encodeULEB (strBytes s).length ++ strBytes s

/-- Lexicographic comparison of byte strings (`Vec<u8>` ordering), used by
the canonical map encoding. -/
def bytesLe : List Nat → List Nat → Bool
  | [], _ => true
  | _ :: _, [] => false
  | a :: as, b :: bs => if a < b then true else if b < a then false else bytesLe as bs

/-- Insert a serialized entry into a key-ordered entry list. -/
def insertEntry (e : List Nat × List Nat) :
    List (List Nat × List Nat) → List (List Nat × List Nat)
  | [] => [e]
  | x :: xs => if bytesLe e.1 x.1 then e :: x :: xs else x :: insertEntry e xs

/-- Order serialized map entries by their serialized keys (the canonical
map encoding serializes entries in key order; field names of a struct are
distinct, so ties do not arise). -/
def sortEntries : List (List Nat × List Nat) → List (List Nat × List Nat)
  | [] => []
  | e :: es => insertEntry e (sortEntries es)

/-- BCS encoding of a map from pre-serialized entries: ULEB128 entry count,
then each key followed by its value, in key order. -/
def serializeMap (entries : List (List Nat × List Nat)) : List Nat :=
  encodeULEB entries.length ++ ((sortEntries entries).map (fun e => e.1 ++ e.2)).flatten

/-- One hexadecimal digit. -/
def hexDigit (n : Nat) : Char :=
  if n < 10 then Char.ofNat (48 + n) else Char.ofNat (87 + n)

/-- Hexadecimal digits of a number, most significant first. -/
def hexDigits (n : Nat) : List Char :=
  if n < 16 then [hexDigit n] else hexDigits (n / 16) ++ [hexDigit (n % 16)]
decreasing_by exact Nat.div_lt_self (by omega) (by omega)

/-- The numeric value of big-endian address bytes. -/
def beValue : List Nat → Nat
  | [] => 0
  | b :: bs => b * 256 ^ bs.length + beValue bs

/-- Short hexadecimal rendering of an address (leading zeros stripped),
modelled from the spec rendering `address::module::Name`. -/
def addressRender (a : AccountAddress) : String :=
  "0x" ++ String.mk (hexDigits (beValue a))

mutual

/-- Render a type tag as in the canonical string form
(`address::module::Name<TypeArg,...>`), modelled from the spec: the
`Display` source for tags is outside the given sources. -/
def TypeTag.render : TypeTag → String
  | .Bool => "bool"
  | .U8 => "u8"
  | .U64 => "u64"
  | .U128 => "u128"
  | .Address => "address"
  | .Signer => "signer"
  | .Vector t => "vector<" ++ TypeTag.render t ++ ">"
  | .Struct s => StructTag.render s

/-- Render a struct tag (`address::module::Name<TypeArg,...>`). -/
def StructTag.render : StructTag → String
  | .mk addr module name typeParams =>
    addressRender addr ++ "::" ++ module ++ "::" ++ name ++
      (match typeParams with
        | [] => ""
        | t :: ts => "<" ++ TypeTag.render t ++ renderTail ts ++ ">")

/-- Render the remaining type arguments, comma separated. -/
def renderTail : List TypeTag → String
  | [] => ""
  | t :: ts => ", " ++ TypeTag.render t ++ renderTail ts

end

mutual

/-- `Serialize for MoveValue` composed with the BCS byte format. -/
def serializeValue : MoveValue → List Nat
  | .Struct s => serializeStruct s
  | .Bool b => [if b then 1 else 0]
  | .U8 n => [n]
  | .U64 n => toLEBytes 8 n
  | .U128 n => toLEBytes 16 n
  | .Address a => a
  | .Signer a => a
  | .Vector vs => encodeULEB vs.length ++ serializeElems vs

/-- Concatenated encodings of a value sequence (a serde tuple or the body
of a sequence). -/
def serializeElems : List MoveValue → List Nat
  | [] => []
  | v :: vs => serializeValue v ++ serializeElems vs

/-- `Serialize for MoveStruct` composed with the BCS byte format: a
`Runtime` struct is a serde tuple (plain concatenation); `WithFields` is a
serde map of name/value entries; `WithTypes` is a two-field serde struct
holding the rendered type tag string and the same map. -/
def serializeStruct : MoveStruct → List Nat
  | .Runtime s => serializeElems s
  | .WithFields fields => serializeMap (serializeEntries fields)
  | .WithTypes type_ fields =>
    serializeStr (StructTag.render type_) ++ serializeMap (serializeEntries fields)

/-- Serialized (key, value) pairs of the named fields (`MoveFields`). -/
def serializeEntries : List (Identifier × MoveValue) → List (List Nat × List Nat)
  | [] => []
  | (f, v) :: rest => (serializeStr f, serializeValue v) :: serializeEntries rest

end

/-- `MoveValue::simple_serialize`: `bcs::to_bytes(self).ok()`.  The modelled
fragment of the format has no failing encode path (the spec treats encode
failure as an internal invariant violation), so the result is always
`some`. -/
def MoveValue.simple_serialize (v : MoveValue) : Option (List Nat) :=
  some (serializeValue v)

/-! ## Canonical binary decoding

The `DeserializeSeed` implementations of the source (dispatch on the layout,
the vector visitor and the two struct-field visitors) composed with the BCS
byte source: a tuple of arity `n` yields exactly `n` elements to its
visitor, a sequence reads a ULEB128 length first, primitives read fixed-width
bytes.  The decoder passes the remaining byte stream explicitly. -/

/-- Decode errors: the recoverable format errors of the byte source plus
the `invalid_length` error the struct-field visitors can raise. -/
inductive DeErr where
  | eof : DeErr
  | invalidBool (b : Nat) : DeErr
  | invalidLength (i : Nat) : DeErr
  | remainingInput : DeErr
deriving DecidableEq

/-- Read one byte from the stream. -/
def readByte : List Nat → Except DeErr (Nat × List Nat)
  | [] => .error .eof
  | b :: bs => .ok (b, bs)

/-- Read exactly `n` bytes from the stream. -/
def readBytes : Nat → List Nat → Except DeErr (List Nat × List Nat)
  | 0, bs => .ok ([], bs)
  | _ + 1, [] => .error .eof
  | n + 1, b :: bs => do
    let (xs, rest) ← readBytes n bs
    .ok (b :: xs, rest)

/-- Read a ULEB128-encoded length from the stream. -/
def parseULEB : List Nat → Except DeErr (Nat × List Nat)
  | [] => .error .eof
  | b :: bs =>
    if b < 128 then .ok (b, bs)
    else do
      let (n, rest) ← parseULEB bs
      .ok (b - 128 + 128 * n, rest)

/-- Read a boolean: one byte that must be 0 or 1. -/
def parseBool (bs : List Nat) : Except DeErr (Bool × List Nat) := do
  let (b, rest) ← readByte bs
  if b = 0 then .ok (false, rest)
  else if b = 1 then .ok (true, rest)
  else .error (.invalidBool b)

mutual

/-- `DeserializeSeed for &MoveTypeLayout`: dispatch on the layout kind. -/
def deserializeValue : MoveTypeLayout → List Nat → Except DeErr (MoveValue × List Nat)
  | .Bool, bs => do
    let (b, rest) ← parseBool bs
    .ok (.Bool b, rest)
  | .U8, bs => do
    let (n, rest) ← readByte bs
    .ok (.U8 n, rest)
  | .U64, bs => do
    let (bytes, rest) ← readBytes 8 bs
    .ok (.U64 (fromLEBytes bytes), rest)
  | .U128, bs => do
    let (bytes, rest) ← readBytes 16 bs
    .ok (.U128 (fromLEBytes bytes), rest)
  | .Address, bs => do
    let (a, rest) ← readBytes addressLength bs
    .ok (.Address a, rest)
  | .Signer, bs => do
    let (a, rest) ← readBytes addressLength bs
    .ok (.Signer a, rest)
  | .Struct ty, bs => do
    let (s, rest) ← deserializeStruct ty bs
    .ok (.Struct s, rest)
  | .Vector layout, bs => do
    let (n, bs1) ← parseULEB bs
    let (vals, rest) ← visitVectorElements layout n bs1
    .ok (.Vector vals, rest)

/-- `VectorElementVisitor::visit_seq`: the streaming element loop, driven by
the element count the length prefix declared. -/
def visitVectorElements : MoveTypeLayout → Nat → List Nat →
    Except DeErr (List MoveValue × List Nat)
  | _, 0, bs => .ok ([], bs)
  | layout, n + 1, bs => do
    let (v, bs1) ← deserializeValue layout bs
    let (vs, rest) ← visitVectorElements layout n bs1
    .ok (v :: vs, rest)

/-- `StructFieldVisitor::visit_seq`: one value per field layout in declared
order; `remaining` counts the elements the enclosing tuple access still
yields, and exhausting it raises `invalid_length` with the field index. -/
def visitStructFields : List MoveTypeLayout → Nat → Nat → List Nat →
    Except DeErr (List MoveValue × List Nat)
  | [], _, _, bs => .ok ([], bs)
  | _ :: _, 0, i, _ => .error (.invalidLength i)
  | fieldType :: rest, r + 1, i, bs => do
    let (v, bs1) ← deserializeValue fieldType bs
    let (vs, bs2) ← visitStructFields rest r (i + 1) bs1
    .ok (v :: vs, bs2)

/-- `DecoratedStructFieldVisitor::visit_seq`: as `visitStructFields`, but
each element is decoded through `DeserializeSeed for &MoveFieldLayout`,
pairing the declared field name with the decoded value. -/
def visitDecoratedFields : List MoveFieldLayout → Nat → Nat → List Nat →
    Except DeErr (List (Identifier × MoveValue) × List Nat)
  | [], _, _, bs => .ok ([], bs)
  | _ :: _, 0, i, _ => .error (.invalidLength i)
  | .mk name layout :: rest, r + 1, i, bs => do
    let (v, bs1) ← deserializeValue layout bs
    let (vs, bs2) ← visitDecoratedFields rest r (i + 1) bs1
    .ok ((name, v) :: vs, bs2)

/-- `DeserializeSeed for &MoveStructLayout`: each layout kind decodes a
tuple of `layout.len()` fields and wraps it in the matching representation;
a `WithTypes` layout additionally copies its tag into the result. -/
def deserializeStruct : MoveStructLayout → List Nat → Except DeErr (MoveStruct × List Nat)
  | .Runtime layout, bs => do
    let (fields, rest) ← visitStructFields layout layout.length 0 bs
    .ok (.Runtime fields, rest)
  | .WithFields layout, bs => do
    let (fields, rest) ← visitDecoratedFields layout layout.length 0 bs
    .ok (.WithFields fields, rest)
  | .WithTypes type_ layout, bs => do
    let (fields, rest) ← visitDecoratedFields layout layout.length 0 bs
    .ok (.WithTypes type_ fields, rest)

end

/-- `MoveValue::simple_deserialize`: `bcs::from_bytes_seed(ty, blob)`, which
fails with a remaining-input error unless the whole stream is consumed. -/
def MoveValue.simple_deserialize (blob : List Nat) (ty : MoveTypeLayout) :
    Except DeErr MoveValue :=
  match deserializeValue ty blob with
  | .ok (v, []) => .ok v
  | .ok (_, _ :: _) => .error .remainingInput
  | .error e => .error e

/-- `MoveStruct::simple_deserialize`: as above with a struct layout seed. -/
def MoveStruct.simple_deserialize (blob : List Nat) (ty : MoveStructLayout) :
    Except DeErr MoveStruct :=
  match deserializeStruct ty blob with
  | .ok (v, []) => .ok v
  | .ok (_, _ :: _) => .error .remainingInput
  | .error e => .error e

/-! ## Layout consistency

`bareMatches v L` states that `v` is consistent with `L` in the undecorated
fragment: integers are within their width, addresses have the domain width,
vectors match elementwise, and structs are `Runtime` structs matching a
`Runtime` layout pointwise. -/

mutual

/-- Consistency of a value with a layout over the undecorated fragment. -/
def bareMatches : MoveValue → MoveTypeLayout → Bool
  | .U8 n, .U8 => decide (n < 256)
  | .U64 n, .U64 => decide (n < 2 ^ 64)
  | .U128 n, .U128 => decide (n < 2 ^ 128)
  | .Bool _, .Bool => true
  | .Address a, .Address =>
    decide (a.length = addressLength) && a.all (fun b => decide (b < 256))
  | .Signer a, .Signer =>
    decide (a.length = addressLength) && a.all (fun b => decide (b < 256))
  | .Vector vs, .Vector t => bareMatchesList vs t
  | .Struct s, .Struct sl => bareMatchesStruct s sl
  | _, _ => false

/-- Every vector element is consistent with the element layout. -/
def bareMatchesList : List MoveValue → MoveTypeLayout → Bool
  | [], _ => true
  | v :: vs, t => bareMatches v t && bareMatchesList vs t

/-- Consistency of a struct with a struct layout (bare fragment only). -/
def bareMatchesStruct : MoveStruct → MoveStructLayout → Bool
  | .Runtime vs, .Runtime ls => bareMatchesFields vs ls
  | _, _ => false

/-- Pointwise consistency of field values with field layouts. -/
def bareMatchesFields : List MoveValue → List MoveTypeLayout → Bool
  | [], [] => true
  | v :: vs, l :: ls => bareMatches v l && bareMatchesFields vs ls
  | _, _ => false

end

/-- The error message of the failing arm of `TryInto<StructTag>`. -/
def structTagErr : String :=
  "Invalid MoveTypeLayout -> StructTag conversion--needed MoveLayoutType::WithTypes"

/-- `TryInto<StructTag> for &MoveStructLayout`: the type-tag projector.
Only a `WithTypes` layout yields a tag (a copy of the embedded one); the
other representations produce a recoverable error. -/
def MoveStructLayout.structTag : MoveStructLayout → Except String StructTag
  | .Runtime _ => .error structTagErr
  | .WithFields _ => .error structTagErr
  | .WithTypes type_ _ => .ok type_

/-- The promotion rank of a struct representation: `Runtime` below
`WithFields` below `WithTypes` (the one-directional promotion order of the
spec). -/
def rankStruct : MoveStruct → Nat
  | .Runtime _ => 0
  | .WithFields _ => 1
  | .WithTypes _ _ => 2

/-- The promotion rank of a struct layout representation. -/
def rankStructLayout : MoveStructLayout → Nat
  | .Runtime _ => 0
  | .WithFields _ => 1
  | .WithTypes _ _ => 2

/-- Whether a layout is a vector layout. -/
def isVectorLayout : MoveTypeLayout → Bool
  | .Vector _ => true
  | _ => false

/-- Whether a layout is a struct layout. -/
def isStructLayout : MoveTypeLayout → Bool
  | .Struct _ => true
  | _ => false

/-! ## Codec lemmas -/

theorem parseULEB_encodeULEB (n : Nat) (rest : List Nat) :
    parseULEB (encodeULEB n ++ rest) = .ok (n, rest) := by
  unfold encodeULEB
  split
  · simp [parseULEB, *]
  · rename_i h
    have ih := parseULEB_encodeULEB (n / 128) rest
    have h1 : ¬ (n % 128 + 128 < 128) := by omega
    have h2 : n % 128 + 128 - 128 = n % 128 := by omega
    have h3 : n % 128 + 128 * (n / 128) = n := Nat.mod_add_div n 128
    simp [parseULEB, h1, ih, Bind.bind, Except.bind, h2, h3]
termination_by n
decreasing_by exact Nat.div_lt_self (by omega) (by omega)

theorem readBytes_exact (xs : List Nat) (n : Nat) (rest : List Nat)
    (h : xs.length = n) : readBytes n (xs ++ rest) = .ok (xs, rest) := by
  induction xs generalizing n with
  | nil => subst h; simp [readBytes]
  | cons b bs ih =>
    subst h
    simp [readBytes, ih bs.length rfl, Bind.bind, Except.bind]

theorem length_toLEBytes (w n : Nat) : (toLEBytes w n).length = w := by
  induction w generalizing n with
  | zero => simp [toLEBytes]
  | succ w ih => simp [toLEBytes, ih]

theorem fromLEBytes_toLEBytes (w n : Nat) (h : n < 256 ^ w) :
    fromLEBytes (toLEBytes w n) = n := by
  induction w generalizing n with
  | zero =>
    simp only [pow_zero, Nat.lt_one_iff] at h
    simp [toLEBytes, fromLEBytes, h]
  | succ w ih =>
    have hd : n / 256 < 256 ^ w := by
      rw [Nat.div_lt_iff_lt_mul (by omega)]
      calc n < 256 ^ (w + 1) := h
        _ = 256 ^ w * 256 := by ring
    simp [toLEBytes, fromLEBytes, ih (n / 256) hd, Nat.mod_add_div]

/-! ## Round trip over the undecorated fragment -/

mutual

/-- Decoding the encoding of a consistent undecorated value returns the
value and consumes exactly its bytes. -/
theorem rtValue : ∀ (v : MoveValue) (L : MoveTypeLayout) (rest : List Nat),
    bareMatches v L = true →
    deserializeValue L (serializeValue v ++ rest) = .ok (v, rest)
  | .U8 n, L, rest => by
    cases L <;> intro h <;> simp [bareMatches] at h <;>
      simp [serializeValue, deserializeValue, readByte, Bind.bind, Except.bind]
  | .U64 n, L, rest => by
    cases L <;> intro h <;> simp [bareMatches] at h <;>
      simp [serializeValue, deserializeValue, Bind.bind, Except.bind,
        readBytes_exact (toLEBytes 8 n) 8 rest (length_toLEBytes 8 n),
        fromLEBytes_toLEBytes 8 n (by norm_num at h ⊢; omega)]
  | .U128 n, L, rest => by
    cases L <;> intro h <;> simp [bareMatches] at h <;>
      simp [serializeValue, deserializeValue, Bind.bind, Except.bind,
        readBytes_exact (toLEBytes 16 n) 16 rest (length_toLEBytes 16 n),
        fromLEBytes_toLEBytes 16 n (by norm_num at h ⊢; omega)]
  | .Bool b, L, rest => by
    cases L <;> intro h <;> simp [bareMatches] at h <;>
      cases b <;>
        simp [serializeValue, deserializeValue, parseBool, readByte, Bind.bind, Except.bind]
  | .Address a, L, rest => by
    cases L <;> intro h <;> simp [bareMatches] at h <;>
      simp [serializeValue, deserializeValue, Bind.bind, Except.bind,
        readBytes_exact a addressLength rest (by omega)]
  | .Signer a, L, rest => by
    cases L <;> intro h <;> simp [bareMatches] at h <;>
      simp [serializeValue, deserializeValue, Bind.bind, Except.bind,
        readBytes_exact a addressLength rest (by omega)]
  | .Vector vs, L, rest => by
    cases L <;> intro h <;> simp [bareMatches] at h
    case Vector t =>
      have ih := rtElems vs t rest h
      simp [serializeValue, deserializeValue, List.append_assoc,
        parseULEB_encodeULEB, ih, Bind.bind, Except.bind]
  | .Struct s, L, rest => by
    cases L <;> intro h <;> simp [bareMatches] at h
    case Struct sl =>
      have ih := rtStruct s sl rest h
      simp [serializeValue, deserializeValue, ih, Bind.bind, Except.bind]

/-- The vector element loop decodes back exactly the encoded elements. -/
theorem rtElems : ∀ (vs : List MoveValue) (t : MoveTypeLayout) (rest : List Nat),
    bareMatchesList vs t = true →
    visitVectorElements t vs.length (serializeElems vs ++ rest) = .ok (vs, rest)
  | [], t, rest => by
    intro h
    simp [serializeElems, visitVectorElements]
  | v :: vs, t, rest => by
    intro h
    simp [bareMatchesList] at h
    have ih1 := rtValue v t (serializeElems vs ++ rest) h.1
    have ih2 := rtElems vs t rest h.2
    simp [serializeElems, visitVectorElements, List.append_assoc, ih1, ih2,
      Bind.bind, Except.bind]

/-- The struct field loop decodes back exactly the encoded field values. -/
theorem rtFields : ∀ (vs : List MoveValue) (ls : List MoveTypeLayout) (i : Nat)
    (rest : List Nat), bareMatchesFields vs ls = true →
    visitStructFields ls ls.length i (serializeElems vs ++ rest) = .ok (vs, rest)
  | [], [], i, rest => by
    intro h
    simp [serializeElems, visitStructFields]
  | [], l :: ls, i, rest => by intro h; simp [bareMatchesFields] at h
  | v :: vs, [], i, rest => by intro h; simp [bareMatchesFields] at h
  | v :: vs, l :: ls, i, rest => by
    intro h
    simp [bareMatchesFields] at h
    have ih1 := rtValue v l (serializeElems vs ++ rest) h.1
    have ih2 := rtFields vs ls (i + 1) rest h.2
    simp [serializeElems, visitStructFields, List.append_assoc, ih1, ih2,
      Bind.bind, Except.bind]

/-- Decoding the encoding of a consistent bare struct returns it. -/
theorem rtStruct : ∀ (s : MoveStruct) (sl : MoveStructLayout) (rest : List Nat),
    bareMatchesStruct s sl = true →
    deserializeStruct sl (serializeStruct s ++ rest) = .ok (s, rest)
  | .Runtime vs, sl, rest => by
    cases sl <;> intro h <;> simp [bareMatchesStruct] at h
    case Runtime ls =>
      have ih := rtFields vs ls 0 rest h
      simp [serializeStruct, deserializeStruct, ih, Bind.bind, Except.bind]
  | .WithFields fs, sl, rest => by intro h; simp [bareMatchesStruct] at h
  | .WithTypes t fs, sl, rest => by intro h; simp [bareMatchesStruct] at h

end

/-! ## Decode error classification

The `invalid_length` error of the struct-field visitors is unreachable under
the canonical byte source: a tuple access always yields as many elements as
the declared arity, so a short stream surfaces as an end-of-input error from
the element decode instead. -/

theorem bind_ne {α β : Type} {x : Except DeErr α} {f : α → Except DeErr β} {e : DeErr}
    (hx : x ≠ .error e) (hf : ∀ a, f a ≠ .error e) : Except.bind x f ≠ .error e := by
  cases x with
  | error err => simpa [Except.bind] using hx
  | ok a => simpa [Except.bind] using hf a

theorem readByte_not_invalid (bs : List Nat) (i : Nat) :
    readByte bs ≠ .error (.invalidLength i) := by
  cases bs <;> simp [readByte]

theorem readBytes_not_invalid (n : Nat) (bs : List Nat) (i : Nat) :
    readBytes n bs ≠ .error (.invalidLength i) := by
  induction n generalizing bs with
  | zero => simp [readBytes]
  | succ n ih =>
    cases bs with
    | nil => simp [readBytes]
    | cons b bs2 =>
      simp only [readBytes, Bind.bind]
      exact bind_ne (ih bs2) (fun a => by simp)

theorem parseULEB_not_invalid (bs : List Nat) (i : Nat) :
    parseULEB bs ≠ .error (.invalidLength i) := by
  induction bs with
  | nil => simp [parseULEB]
  | cons b bs2 ih =>
    simp only [parseULEB]
    split
    · simp
    · simp only [Bind.bind]
      exact bind_ne ih (fun a => by simp)

theorem parseBool_not_invalid (bs : List Nat) (i : Nat) :
    parseBool bs ≠ .error (.invalidLength i) := by
  simp only [parseBool, Bind.bind]
  refine bind_ne (readByte_not_invalid bs i) (fun a => ?_)
  split
  · simp
  · split <;> simp

mutual

/-- The layout-driven decoder never reports `invalid_length`. -/
theorem nIValue : ∀ (L : MoveTypeLayout) (bs : List Nat) (i : Nat),
    deserializeValue L bs ≠ .error (.invalidLength i)
  | .Bool, bs, i => by
    simp only [deserializeValue, Bind.bind]
    exact bind_ne (parseBool_not_invalid bs i) (fun a => by simp)
  | .U8, bs, i => by
    simp only [deserializeValue, Bind.bind]
    exact bind_ne (readByte_not_invalid bs i) (fun a => by simp)
  | .U64, bs, i => by
    simp only [deserializeValue, Bind.bind]
    exact bind_ne (readBytes_not_invalid 8 bs i) (fun a => by simp)
  | .U128, bs, i => by
    simp only [deserializeValue, Bind.bind]
    exact bind_ne (readBytes_not_invalid 16 bs i) (fun a => by simp)
  | .Address, bs, i => by
    simp only [deserializeValue, Bind.bind]
    exact bind_ne (readBytes_not_invalid addressLength bs i) (fun a => by simp)
  | .Signer, bs, i => by
    simp only [deserializeValue, Bind.bind]
    exact bind_ne (readBytes_not_invalid addressLength bs i) (fun a => by simp)
  | .Struct ty, bs, i => by
    simp only [deserializeValue, Bind.bind]
    exact bind_ne (nIStruct ty bs i) (fun a => by simp)
  | .Vector layout, bs, i => by
    simp only [deserializeValue, Bind.bind]
    refine bind_ne (parseULEB_not_invalid bs i) (fun a => ?_)
    exact bind_ne (nIElems layout a.1 a.2 i) (fun b => by simp)

/-- The vector element loop never reports `invalid_length`. -/
theorem nIElems : ∀ (L : MoveTypeLayout) (n : Nat) (bs : List Nat) (i : Nat),
    visitVectorElements L n bs ≠ .error (.invalidLength i)
  | _, 0, bs, i => by simp [visitVectorElements]
  | layout, n + 1, bs, i => by
    simp only [visitVectorElements, Bind.bind]
    refine bind_ne (nIValue layout bs i) (fun a => ?_)
    exact bind_ne (nIElems layout n a.2 i) (fun b => by simp)

/-- With the access count equal to the declared arity — as
`deserialize_tuple(layout.len(), ...)` always arranges — the bare struct
field loop never reports `invalid_length`. -/
theorem nIFields : ∀ (ls : List MoveTypeLayout) (k : Nat) (bs : List Nat) (i : Nat),
    visitStructFields ls ls.length k bs ≠ .error (.invalidLength i)
  | [], k, bs, i => by simp [visitStructFields]
  | l :: ls, k, bs, i => by
    simp only [List.length_cons, visitStructFields, Bind.bind]
    refine bind_ne (nIValue l bs i) (fun a => ?_)
    exact bind_ne (nIFields ls (k + 1) a.2 i) (fun b => by simp)

/-- As `nIFields`, for the decorated field loop. -/
theorem nIDecorated : ∀ (ls : List MoveFieldLayout) (k : Nat) (bs : List Nat) (i : Nat),
    visitDecoratedFields ls ls.length k bs ≠ .error (.invalidLength i)
  | [], k, bs, i => by simp [visitDecoratedFields]
  | .mk name layout :: ls, k, bs, i => by
    simp only [List.length_cons, visitDecoratedFields, Bind.bind]
    refine bind_ne (nIValue layout bs i) (fun a => ?_)
    exact bind_ne (nIDecorated ls (k + 1) a.2 i) (fun b => by simp)

/-- The struct decoder never reports `invalid_length`. -/
theorem nIStruct : ∀ (sl : MoveStructLayout) (bs : List Nat) (i : Nat),
    deserializeStruct sl bs ≠ .error (.invalidLength i)
  | .Runtime layout, bs, i => by
    simp only [deserializeStruct, Bind.bind]
    exact bind_ne (nIFields layout 0 bs i) (fun a => by simp)
  | .WithFields layout, bs, i => by
    simp only [deserializeStruct, Bind.bind]
    exact bind_ne (nIDecorated layout 0 bs i) (fun a => by simp)
  | .WithTypes type_ layout, bs, i => by
    simp only [deserializeStruct, Bind.bind]
    exact bind_ne (nIDecorated layout 0 bs i) (fun a => by simp)

end

/-- A successful bare field loop yields exactly one value per field layout,
whatever the access count. -/
theorem visitStructFields_ok_length (ls : List MoveTypeLayout) :
    ∀ (r k : Nat) (bs : List Nat) (vs : List MoveValue) (rest : List Nat),
    visitStructFields ls r k bs = .ok (vs, rest) → vs.length = ls.length := by
  induction ls with
  | nil =>
    intro r k bs vs rest h
    simp [visitStructFields] at h
    simp [h.1]
  | cons l ls ih =>
    intro r k bs vs rest h
    cases r with
    | zero => simp [visitStructFields] at h
    | succ r =>
      simp only [visitStructFields, Bind.bind] at h
      cases hv : deserializeValue l bs with
      | error e => rw [hv] at h; simp [Except.bind] at h
      | ok p =>
        rw [hv] at h
        simp only [Except.bind] at h
        cases hf : visitStructFields ls r (k + 1) p.2 with
        | error e => rw [hf] at h; simp at h
        | ok q =>
          rw [hf] at h
          simp at h
          have hlen := ih r (k + 1) p.2 q.1 q.2 (by rw [hf])
          simp [← h.1, hlen]

/-- A successful decorated field loop yields exactly one named value per
field layout, whatever the access count. -/
theorem visitDecoratedFields_ok_length (ls : List MoveFieldLayout) :
    ∀ (r k : Nat) (bs : List Nat) (vs : List (Identifier × MoveValue)) (rest : List Nat),
    visitDecoratedFields ls r k bs = .ok (vs, rest) → vs.length = ls.length := by
  induction ls with
  | nil =>
    intro r k bs vs rest h
    simp [visitDecoratedFields] at h
    simp [h.1]
  | cons l ls ih =>
    intro r k bs vs rest h
    cases r with
    | zero => cases l with | mk n la => simp [visitDecoratedFields] at h
    | succ r =>
      cases l with
      | mk n la =>
        simp only [visitDecoratedFields, Bind.bind] at h
        cases hv : deserializeValue la bs with
        | error e => rw [hv] at h; simp [Except.bind] at h
        | ok p =>
          rw [hv] at h
          simp only [Except.bind] at h
          cases hf : visitDecoratedFields ls r (k + 1) p.2 with
          | error e => rw [hf] at h; simp at h
          | ok q =>
            rw [hf] at h
            simp at h
            have hlen := ih r (k + 1) p.2 q.1 q.2 (by rw [hf])
            simp [← h.1, hlen]

/-! ## Encoding length lemmas -/

theorem encodeULEB_length_pos (n : Nat) : 0 < (encodeULEB n).length := by
  unfold encodeULEB
  split <;> simp

theorem serializeStr_length_pos (s : String) : 0 < (serializeStr s).length := by
  have := encodeULEB_length_pos (strBytes s).length
  simp [serializeStr]
  omega

theorem insertEntry_perm (e : List Nat × List Nat) (l : List (List Nat × List Nat)) :
    (insertEntry e l).Perm (e :: l) := by
  induction l with
  | nil => simp [insertEntry]
  | cons x xs ih =>
    simp only [insertEntry]
    split
    · exact List.Perm.refl _
    · exact ((ih.cons x).trans (List.Perm.swap e x xs))

theorem sortEntries_perm (l : List (List Nat × List Nat)) : (sortEntries l).Perm l := by
  induction l with
  | nil => simp [sortEntries]
  | cons e es ih => exact (insertEntry_perm e (sortEntries es)).trans (ih.cons e)

theorem serializeElems_eq (vs : List MoveValue) :
    serializeElems vs = (vs.map serializeValue).flatten := by
  induction vs with
  | nil => simp [serializeElems]
  | cons v vs ih => simp [serializeElems, ih]

theorem serializeEntries_eq (fs : List (Identifier × MoveValue)) :
    serializeEntries fs = fs.map (fun p => (serializeStr p.1, serializeValue p.2)) := by
  induction fs with
  | nil => simp [serializeEntries]
  | cons p ps ih => cases p with | mk f v => simp [serializeEntries, ih]

theorem serializeMap_length (es : List (List Nat × List Nat)) :
    (serializeMap es).length =
      (encodeULEB es.length).length + (es.map (fun e => e.1.length + e.2.length)).sum := by
  have hperm : ((sortEntries es).map (fun e => e.1.length + e.2.length)).Perm
      (es.map (fun e => e.1.length + e.2.length)) :=
    (sortEntries_perm es).map (fun e => e.1.length + e.2.length)
  simp [serializeMap, List.length_flatten, List.map_map, Function.comp_def, hperm.sum_eq]

/-! ## Decoration lemmas -/

theorem decorateZip_length (vs : List MoveValue) :
    ∀ ls : List MoveFieldLayout, (decorateZip vs ls).length = min vs.length ls.length := by
  induction vs with
  | nil => intro ls; cases ls <;> simp [decorateZip]
  | cons v vs ih =>
    intro ls
    cases ls with
    | nil => simp [decorateZip]
    | cons l ls => simp [decorateZip, ih ls]; omega

theorem decorateZip_getElem (vs : List MoveValue) :
    ∀ (ls : List MoveFieldLayout) (i : Nat) (v : MoveValue) (l : MoveFieldLayout),
    vs[i]? = some v → ls[i]? = some l →
    (decorateZip vs ls)[i]? = some (l.name, MoveValue.decorate v l.layout) := by
  induction vs with
  | nil => intro ls i v l hv hl; simp at hv
  | cons v0 vs ih =>
    intro ls i v l hv hl
    cases ls with
    | nil => simp at hl
    | cons l0 ls =>
      cases i with
      | zero =>
        simp at hv hl
        simp [decorateZip, hv, hl]
      | succ i =>
        simp at hv hl
        simp [decorateZip]
        exact ih ls i v l hv hl

/-! ## Claim theorems -/

/-- C1 (amended): for every value consistent with a layout over the
undecorated fragment — integers within width, addresses of the domain
width, vectors elementwise, structs bare against bare layouts — decoding
the bytes produced by `simple_serialize` with that layout via
`simple_deserialize` returns exactly the value. -/
theorem round_trip_bare_values (v : MoveValue) (L : MoveTypeLayout)
    (h : bareMatches v L = true) :
    ∃ bytes, MoveValue.simple_serialize v = some bytes ∧
      MoveValue.simple_deserialize bytes L = .ok v := by
  refine ⟨serializeValue v, rfl, ?_⟩
  have hrt := rtValue v L [] h
  rw [List.append_nil] at hrt
  simp [MoveValue.simple_deserialize, hrt]

/-- C1 witness: a concrete bare struct of a byte, a boolean and a vector
of two u64 values round-trips. -/
theorem round_trip_bare_values_witness :
    ∃ bytes, MoveValue.simple_serialize (MoveValue.Struct (.Runtime
        [.U8 7, .Bool true, .Vector [.U64 300, .U64 5]])) = some bytes ∧
      MoveValue.simple_deserialize bytes (MoveTypeLayout.Struct (.Runtime
        [.U8, .Bool, .Vector .U64])) = .ok (MoveValue.Struct (.Runtime
        [.U8 7, .Bool true, .Vector [.U64 300, .U64 5]])) :=
  round_trip_bare_values _ _
    (by simp [bareMatches, bareMatchesStruct, bareMatchesFields, bareMatchesList])

/-- C1 counterexample: a field-named struct value whose shape agrees with a
field-named layout does not decode back from its own encoding — the encoder
emits the map form (length prefix and field name), while the decoder reads
the positional form and rejects the leftover bytes. -/
theorem round_trip_decorated_cx :
    MoveValue.simple_serialize (MoveValue.Struct (.WithFields [(r"a", .U8 1)]))
        = some [1, 1, 97, 1]
  ∧ MoveValue.simple_deserialize [1, 1, 97, 1]
        (MoveTypeLayout.Struct (.WithFields [.mk (r"a") .U8])) = .error .remainingInput
  ∧ (Except.error DeErr.remainingInput : Except DeErr MoveValue) ≠
      .ok (MoveValue.Struct (.WithFields [(r"a", .U8 1)])) := by
  refine ⟨?_, ?_, by simp⟩
  · simp [MoveValue.simple_serialize, serializeValue, serializeStruct, serializeEntries,
      serializeMap, sortEntries, insertEntry, serializeStr, strBytes, encodeULEB]
  · simp [MoveValue.simple_deserialize, deserializeValue, deserializeStruct,
      visitDecoratedFields, readByte, Bind.bind, Except.bind]

/-- C2 (amended): a bare (`Runtime`) struct encodes as the concatenation of
its field encodings with no length prefix, no field names and no type tag;
the `WithFields` and `WithTypes` encodings of the same fields are strictly
longer (they carry a length prefix, the field names, and for `WithTypes`
the rendered type tag), so they never coincide with the bare encoding. -/
theorem struct_encoding_by_representation (fields : List (Identifier × MoveValue))
    (t : StructTag) :
    serializeStruct (.Runtime (fields.map Prod.snd))
        = ((fields.map Prod.snd).map serializeValue).flatten
  ∧ (serializeStruct (.Runtime (fields.map Prod.snd))).length
        < (serializeStruct (.WithFields fields)).length
  ∧ (serializeStruct (.Runtime (fields.map Prod.snd))).length
        < (serializeStruct (.WithTypes t fields)).length := by
  have hrt : (serializeStruct (.Runtime (fields.map Prod.snd))).length
      = (fields.map (fun p => (serializeValue p.2).length)).sum := by
    simp [serializeStruct, serializeElems_eq, List.length_flatten, List.map_map,
      Function.comp_def]
  have hwf : (serializeStruct (.WithFields fields)).length
      = (encodeULEB fields.length).length
        + (fields.map (fun p => (serializeStr p.1).length + (serializeValue p.2).length)).sum := by
    simp [serializeStruct, serializeMap_length, serializeEntries_eq, List.map_map,
      Function.comp_def]
  have hwt : (serializeStruct (.WithTypes t fields)).length
      = (serializeStr (StructTag.render t)).length
        + ((encodeULEB fields.length).length
          + (fields.map (fun p => (serializeStr p.1).length + (serializeValue p.2).length)).sum) := by
    simp [serializeStruct, serializeMap_length, serializeEntries_eq, List.map_map,
      Function.comp_def]
  have hsum : (fields.map (fun p => (serializeValue p.2).length)).sum
      ≤ (fields.map (fun p => (serializeStr p.1).length + (serializeValue p.2).length)).sum :=
    List.sum_le_sum (fun p _ => by have := serializeStr_length_pos p.1; omega)
  have hu := encodeULEB_length_pos fields.length
  have hs := serializeStr_length_pos (StructTag.render t)
  refine ⟨by simp [serializeStruct, serializeElems_eq], by omega, by omega⟩

/-- C2 counterexample: for the single field `a = 1u8`, the bare struct
encodes to `[1]` while the `WithFields` form encodes to `[1, 1, 97, 1]`
(entry count, name length, the name `a`, the value) and the `WithTypes`
form is longer still — the three encodings are not equal. -/
theorem struct_encoding_cx :
    serializeStruct (.WithFields [(r"a", MoveValue.U8 1)])
        ≠ serializeStruct (.Runtime [MoveValue.U8 1])
  ∧ serializeStruct (.WithTypes (.mk (List.replicate addressLength 0) (r"M") (r"S") [])
        [(r"a", MoveValue.U8 1)]) ≠ serializeStruct (.Runtime [MoveValue.U8 1]) := by
  have hmap : serializeMap (serializeEntries [(r"a", MoveValue.U8 1)]) = [1, 1, 97, 1] := by
    simp [serializeEntries, serializeMap, sortEntries, insertEntry, serializeStr, strBytes,
      encodeULEB, serializeValue]
  have hrt : serializeStruct (.Runtime [MoveValue.U8 1]) = [1] := by
    simp [serializeStruct, serializeElems, serializeValue]
  constructor
  · intro h
    rw [hrt] at h
    simp [serializeStruct, hmap] at h
  · intro h
    rw [hrt] at h
    simp only [serializeStruct, hmap] at h
    have hl := congrArg List.length h
    simp [List.length_append] at hl

/-- C3 (amended): decoding a bare-struct layout of N field layouts never
returns a struct of fewer than N fields — any success carries exactly N —
and never returns the index-identifying `invalid_length` error: under the
canonical byte source the tuple access always yields the declared arity, so
a short stream fails inside an element decode with an end-of-input error
instead. -/
theorem struct_decode_arity (ls : List MoveTypeLayout) (bs : List Nat) :
    (∀ (s : MoveStruct) (rest : List Nat),
        deserializeStruct (.Runtime ls) bs = .ok (s, rest) →
          s.into_fields.length = ls.length)
  ∧ ∀ i : Nat, deserializeStruct (.Runtime ls) bs ≠ .error (.invalidLength i) := by
  constructor
  · intro s rest h
    simp only [deserializeStruct, Bind.bind] at h
    cases hv : visitStructFields ls ls.length 0 bs with
    | error e => rw [hv] at h; simp [Except.bind] at h
    | ok p =>
      rw [hv] at h
      simp [Except.bind] at h
      have hlen := visitStructFields_ok_length ls ls.length 0 bs p.1 p.2 (by rw [hv])
      simp [← h.1, MoveStruct.into_fields, hlen]
  · exact nIStruct (.Runtime ls) bs

/-- C3 witness: a one-field layout decoding one byte succeeds with exactly
one field. -/
theorem struct_decode_arity_witness :
    (MoveStruct.into_fields (.Runtime [MoveValue.U8 3])).length = [MoveTypeLayout.U8].length :=
  (struct_decode_arity [.U8] [3]).1 (.Runtime [.U8 3]) []
    (by simp [deserializeStruct, visitStructFields, deserializeValue, readByte,
      Bind.bind, Except.bind])

/-- C3 counterexample: decoding the one-byte stream `[7]` against a
two-field bare layout fails with the end-of-input error, which does not
name the missing field index (index 1). -/
theorem struct_decode_short_cx :
    MoveStruct.simple_deserialize [7] (.Runtime [.U8, .U8]) = .error .eof
  ∧ DeErr.eof ≠ DeErr.invalidLength 1 := by
  refine ⟨?_, by decide⟩
  simp [MoveStruct.simple_deserialize, deserializeStruct, visitStructFields,
    deserializeValue, readByte, Bind.bind, Except.bind]

/-- C4: decorating a `WithTypes` struct returns it unchanged for every
layout; more generally a struct whose representation rank is at or beyond
the rank of the target layout passes through unchanged, and decoration is
idempotent. -/
theorem decorate_idempotent :
    (∀ (t : StructTag) (fs : List (Identifier × MoveValue)) (L : MoveStructLayout),
        MoveStruct.decorate (.WithTypes t fs) L = .WithTypes t fs)
  ∧ (∀ (s : MoveStruct) (L : MoveStructLayout),
        rankStructLayout L ≤ rankStruct s → MoveStruct.decorate s L = s)
  ∧ (∀ (s : MoveStruct) (L : MoveStructLayout),
        MoveStruct.decorate (MoveStruct.decorate s L) L = MoveStruct.decorate s L) := by
  refine ⟨?_, ?_, ?_⟩
  · intro t fs L
    cases L <;> simp [MoveStruct.decorate]
  · intro s L h
    cases s <;> cases L <;>
      simp_all [rankStruct, rankStructLayout, MoveStruct.decorate]
  · intro s L
    cases s <;> cases L <;> simp [MoveStruct.decorate]

/-- C4 witness: a `WithFields` struct decorated against a `WithFields`
layout (equal rank) passes through unchanged. -/
theorem decorate_idempotent_witness :
    MoveStruct.decorate (.WithFields [(r"a", MoveValue.U8 1)])
        (.WithFields [MoveFieldLayout.mk (r"a") .U8])
      = .WithFields [(r"a", MoveValue.U8 1)] :=
  decorate_idempotent.2.1 _ _ (by decide)

/-- C5: decorating a bare struct of K values against a `WithFields` layout
of K field layouts yields a `WithFields` struct of K pairs whose i-th pair
is the name of the i-th field layout together with the decoration of the
i-th value against that field layout. -/
theorem decorate_shape_correspondence (vs : List MoveValue) (ls : List MoveFieldLayout)
    (h : vs.length = ls.length) :
    MoveStruct.decorate (.Runtime vs) (.WithFields ls) = .WithFields (decorateZip vs ls)
  ∧ (decorateZip vs ls).length = vs.length
  ∧ ∀ (i : Nat) (v : MoveValue) (l : MoveFieldLayout), vs[i]? = some v → ls[i]? = some l →
      (decorateZip vs ls)[i]? = some (l.name, MoveValue.decorate v l.layout) := by
  refine ⟨by simp [MoveStruct.decorate], ?_,
    fun i v l hv hl => decorateZip_getElem vs ls i v l hv hl⟩
  simp [decorateZip_length, h]

/-- C5 witness: the second pair of a concrete two-field decoration is the
declared name paired with the decorated value. -/
theorem decorate_shape_correspondence_witness :
    (decorateZip [MoveValue.U8 1, MoveValue.Bool true]
        [MoveFieldLayout.mk (r"x") .U8, MoveFieldLayout.mk (r"y") .Bool])[1]? =
      some ((MoveFieldLayout.mk (r"y") MoveTypeLayout.Bool).name,
        MoveValue.decorate (MoveValue.Bool true) (MoveFieldLayout.mk (r"y") MoveTypeLayout.Bool).layout) :=
  (decorate_shape_correspondence [MoveValue.U8 1, MoveValue.Bool true]
      [MoveFieldLayout.mk (r"x") .U8, MoveFieldLayout.mk (r"y") .Bool] rfl).2.2
    1 _ _ (by simp) (by simp)

/-- C6: projecting a type tag from a struct layout succeeds exactly when
the layout is `WithTypes`, returning the embedded tag (never recomputed
from the field shapes); `Runtime` and `WithFields` layouts produce the
recoverable missing-nominal-type error. -/
theorem struct_tag_projection :
    (∀ (t : StructTag) (fs : List MoveFieldLayout),
        MoveStructLayout.structTag (.WithTypes t fs) = .ok t)
  ∧ (∀ fs : List MoveTypeLayout,
        MoveStructLayout.structTag (.Runtime fs) = .error structTagErr)
  ∧ (∀ fs : List MoveFieldLayout,
        MoveStructLayout.structTag (.WithFields fs) = .error structTagErr)
  ∧ (∀ (L : MoveStructLayout) (t : StructTag),
        MoveStructLayout.structTag L = .ok t → ∃ fs, L = .WithTypes t fs) := by
  refine ⟨fun t fs => rfl, fun fs => rfl, fun fs => rfl, ?_⟩
  intro L t h
  cases L with
  | Runtime fs => simp [MoveStructLayout.structTag] at h
  | WithFields fs => simp [MoveStructLayout.structTag] at h
  | WithTypes t2 fs =>
    simp [MoveStructLayout.structTag] at h
    exact ⟨fs, by rw [h]⟩

/-- C6 witness: projection from a concrete `WithTypes` layout yields the
embedded tag. -/
theorem struct_tag_projection_witness :
    ∃ fs, MoveStructLayout.WithTypes (.mk (List.replicate addressLength 0) (r"M") (r"S") []) []
        = .WithTypes (.mk (List.replicate addressLength 0) (r"M") (r"S") []) fs :=
  struct_tag_projection.2.2.2 _ (.mk (List.replicate addressLength 0) (r"M") (r"S") []) rfl

/-- C7: the borrowing flat-field accessor returns the positional sequence
on the bare representation and aborts (modelled as `none`) on the
`WithFields` and `WithTypes` representations, for structs and for struct
layouts alike. -/
theorem flat_fields_contract :
    (∀ vs : List MoveValue, MoveStruct.fields (.Runtime vs) = some vs)
  ∧ (∀ fs : List (Identifier × MoveValue), MoveStruct.fields (.WithFields fs) = none)
  ∧ (∀ (t : StructTag) (fs : List (Identifier × MoveValue)),
        MoveStruct.fields (.WithTypes t fs) = none)
  ∧ (∀ vs : List MoveTypeLayout, MoveStructLayout.fields (.Runtime vs) = some vs)
  ∧ (∀ fs : List MoveFieldLayout, MoveStructLayout.fields (.WithFields fs) = none)
  ∧ (∀ (t : StructTag) (fs : List MoveFieldLayout),
        MoveStructLayout.fields (.WithTypes t fs) = none) :=
  ⟨fun _ => rfl, fun _ => rfl, fun _ _ => rfl, fun _ => rfl, fun _ => rfl, fun _ _ => rfl⟩

/-- C8: a successful struct decode returns the representation matching the
layout kind one-to-one — bare from `Runtime`, field-named from
`WithFields`, and fully-typed carrying the tag embedded in the layout from
`WithTypes`. -/
theorem decode_shape_matches_layout :
    (∀ (ls : List MoveTypeLayout) (bs : List Nat) (s : MoveStruct) (rest : List Nat),
        deserializeStruct (.Runtime ls) bs = .ok (s, rest) → ∃ vs, s = .Runtime vs)
  ∧ (∀ (ls : List MoveFieldLayout) (bs : List Nat) (s : MoveStruct) (rest : List Nat),
        deserializeStruct (.WithFields ls) bs = .ok (s, rest) → ∃ fs, s = .WithFields fs)
  ∧ (∀ (t : StructTag) (ls : List MoveFieldLayout) (bs : List Nat) (s : MoveStruct)
        (rest : List Nat),
        deserializeStruct (.WithTypes t ls) bs = .ok (s, rest) → ∃ fs, s = .WithTypes t fs) := by
  refine ⟨?_, ?_, ?_⟩
  · intro ls bs s rest h
    simp only [deserializeStruct, Bind.bind] at h
    cases hv : visitStructFields ls ls.length 0 bs with
    | error e => rw [hv] at h; simp [Except.bind] at h
    | ok p =>
      rw [hv] at h
      simp [Except.bind] at h
      exact ⟨p.1, by simp [← h.1]⟩
  · intro ls bs s rest h
    simp only [deserializeStruct, Bind.bind] at h
    cases hv : visitDecoratedFields ls ls.length 0 bs with
    | error e => rw [hv] at h; simp [Except.bind] at h
    | ok p =>
      rw [hv] at h
      simp [Except.bind] at h
      exact ⟨p.1, by simp [← h.1]⟩
  · intro t ls bs s rest h
    simp only [deserializeStruct, Bind.bind] at h
    cases hv : visitDecoratedFields ls ls.length 0 bs with
    | error e => rw [hv] at h; simp [Except.bind] at h
    | ok p =>
      rw [hv] at h
      simp [Except.bind] at h
      exact ⟨p.1, by simp [← h.1]⟩

/-- C8 witness: decoding one byte against a concrete `WithTypes` layout
yields the fully-typed struct carrying the tag of the layout. -/
theorem decode_shape_matches_layout_witness :
    ∃ fs, (MoveStruct.WithTypes (.mk (List.replicate addressLength 0) (r"M") (r"S") [])
        [(r"a", MoveValue.U8 5)])
      = .WithTypes (.mk (List.replicate addressLength 0) (r"M") (r"S") []) fs :=
  decode_shape_matches_layout.2.2 (.mk (List.replicate addressLength 0) (r"M") (r"S") [])
    [.mk (r"a") .U8] [5] _ []
    (by simp [deserializeStruct, visitDecoratedFields, deserializeValue, readByte,
      Bind.bind, Except.bind])

/-- C9: decorating a bare struct of K values against a decorated layout of
M field layouts with K and M different yields a struct of min(K, M) fields
— the positional zip follows the shorter sequence and does not fail. -/
theorem decorate_length_mismatch (vs : List MoveValue) (ls : List MoveFieldLayout)
    (t : StructTag) (h : vs.length ≠ ls.length) :
    (MoveStruct.into_fields (MoveStruct.decorate (.Runtime vs) (.WithFields ls))).length
        = min vs.length ls.length
  ∧ (MoveStruct.into_fields (MoveStruct.decorate (.Runtime vs) (.WithTypes t ls))).length
        = min vs.length ls.length := by
  constructor <;> simp [MoveStruct.decorate, MoveStruct.into_fields, decorateZip_length]

/-- C9 witness: two values against one field layout decorate to a single
field. -/
theorem decorate_length_mismatch_witness :
    (MoveStruct.into_fields (MoveStruct.decorate (.Runtime [MoveValue.U8 1, MoveValue.U8 2])
        (.WithFields [MoveFieldLayout.mk (r"x") .U8]))).length
      = min [MoveValue.U8 1, MoveValue.U8 2].length [MoveFieldLayout.mk (r"x") MoveTypeLayout.U8].length :=
  (decorate_length_mismatch [MoveValue.U8 1, MoveValue.U8 2]
    [MoveFieldLayout.mk (r"x") .U8]
    (.mk (List.replicate addressLength 0) (r"M") (r"S") []) (by decide)).1

/-- C10: decoration is total and never fails; primitive values are returned
unchanged under every layout, and a vector or struct value meeting a layout
of a different kind is returned unchanged as well. -/
theorem decorate_total_pass_through :
    (∀ (n : Nat) (L : MoveTypeLayout), MoveValue.decorate (.U8 n) L = .U8 n)
  ∧ (∀ (n : Nat) (L : MoveTypeLayout), MoveValue.decorate (.U64 n) L = .U64 n)
  ∧ (∀ (n : Nat) (L : MoveTypeLayout), MoveValue.decorate (.U128 n) L = .U128 n)
  ∧ (∀ (b : Bool) (L : MoveTypeLayout), MoveValue.decorate (.Bool b) L = .Bool b)
  ∧ (∀ (a : AccountAddress) (L : MoveTypeLayout), MoveValue.decorate (.Address a) L = .Address a)
  ∧ (∀ (a : AccountAddress) (L : MoveTypeLayout), MoveValue.decorate (.Signer a) L = .Signer a)
  ∧ (∀ (vs : List MoveValue) (L : MoveTypeLayout), isVectorLayout L = false →
        MoveValue.decorate (.Vector vs) L = .Vector vs)
  ∧ (∀ (s : MoveStruct) (L : MoveTypeLayout), isStructLayout L = false →
        MoveValue.decorate (.Struct s) L = .Struct s) := by
  refine ⟨?_, ?_, ?_, ?_, ?_, ?_, ?_, ?_⟩ <;> intro x L
  case _ => cases L <;> simp [MoveValue.decorate]
  case _ => cases L <;> simp [MoveValue.decorate]
  case _ => cases L <;> simp [MoveValue.decorate]
  case _ => cases L <;> simp [MoveValue.decorate]
  case _ => cases L <;> simp [MoveValue.decorate]
  case _ => cases L <;> simp [MoveValue.decorate]
  case _ => intro h; cases L <;> simp_all [MoveValue.decorate, isVectorLayout]
  case _ => intro h; cases L <;> simp_all [MoveValue.decorate, isStructLayout]

/-- C10 witness: a vector against a primitive layout and a struct against a
primitive layout both pass through unchanged. -/
theorem decorate_total_pass_through_witness :
    MoveValue.decorate (.Vector [MoveValue.U8 1]) .U8 = .Vector [MoveValue.U8 1]
  ∧ MoveValue.decorate (.Struct (.Runtime [])) .Bool = .Struct (.Runtime []) :=
  ⟨decorate_total_pass_through.2.2.2.2.2.2.1 [MoveValue.U8 1] .U8 rfl,
    decorate_total_pass_through.2.2.2.2.2.2.2 (.Runtime []) .Bool rfl⟩

end MoveCoreTypes
